import Mathlib

/-!
Verification of the CUDA software rasterizer (src/src/rasterize.cu) against its
natural-language specification.  The pipeline is shallowly embedded: GPU kernels
become pure Lean functions over explicit state, float arithmetic is idealized as
exact rational (ℚ) arithmetic, and the normalization operations (glm::normalize,
which require square roots) are carried out over ℝ.  C float-to-int casts are
modelled as truncation toward zero.  The helper functions of rasterizeTools.h
(bounding box, barycentric coordinates, depth at a coordinate) are not part of
the provided sources and are modelled from the specification text.
-/

/-- 2-component rational vector (glm::vec2 idealized over ℚ). -/
structure Vec2 where
  x : ℚ
  y : ℚ
deriving DecidableEq, Repr

/-- 3-component rational vector (glm::vec3 idealized over ℚ). -/
structure Vec3 where
  x : ℚ
  y : ℚ
  z : ℚ
deriving DecidableEq, Repr

/-- 4-component rational vector (glm::vec4 idealized over ℚ). -/
structure Vec4 where
  x : ℚ
  y : ℚ
  z : ℚ
  w : ℚ
deriving DecidableEq, Repr

/-- 3-component real vector, used for quantities that pass through
glm::normalize (whose exact value needs a square root). -/
structure RVec3 where
  x : ℝ
  y : ℝ
  z : ℝ

instance : Add Vec2 := ⟨fun a b => ⟨a.x + b.x, a.y + b.y⟩⟩

instance : SMul ℚ Vec2 := ⟨fun q v => ⟨q * v.x, q * v.y⟩⟩

instance : Add Vec3 := ⟨fun a b => ⟨a.x + b.x, a.y + b.y, a.z + b.z⟩⟩

instance : SMul ℚ Vec3 := ⟨fun q v => ⟨q * v.x, q * v.y, q * v.z⟩⟩

instance : Add RVec3 := ⟨fun a b => ⟨a.x + b.x, a.y + b.y, a.z + b.z⟩⟩

instance : Sub RVec3 := ⟨fun a b => ⟨a.x - b.x, a.y - b.y, a.z - b.z⟩⟩

instance : SMul ℝ RVec3 := ⟨fun q v => ⟨q * v.x, q * v.y, q * v.z⟩⟩

/-- Embed a rational vector into the real vectors. -/
def RVec3.ofQ (v : Vec3) : RVec3 := ⟨(v.x : ℝ), (v.y : ℝ), (v.z : ℝ)⟩

/-- glm::dot on 3-vectors. -/
def RVec3.dot (a b : RVec3) : ℝ := a.x * b.x + a.y * b.y + a.z * b.z

/-- Squared Euclidean norm of a real 3-vector. -/
def RVec3.normSq (v : RVec3) : ℝ := v.x ^ 2 + v.y ^ 2 + v.z ^ 2

/-- glm::normalize: scale a vector by the inverse square root of its dot
product with itself. -/
noncomputable def vnormalize (v : RVec3) : RVec3 :=
  (1 / Real.sqrt (RVec3.dot v v)) • v

/-- C float-to-int conversion: truncation toward zero. -/
def truncQ (q : ℚ) : ℤ := if 0 ≤ q then ⌊q⌋ else ⌈q⌉

/-- C float-to-integer conversion on reals: truncation toward zero. -/
noncomputable def truncR (x : ℝ) : ℤ := if 0 ≤ x then ⌊x⌋ else ⌈x⌉

/-- INT_MAX for 32-bit int. -/
def INT_MAX : ℤ := 2147483647

/-- glm::clamp on integers: min (max x lo) hi. -/
def iclamp (x lo hi : ℤ) : ℤ := min (max x lo) hi

/-- glm::mix (linear interpolation) on rational 3-vectors. -/
def glmMix (a b : Vec3) (t : ℚ) : Vec3 := (1 - t) • a + t • b

/-!
## Texture sampling  (rasterize.cu lines 188-219)

A texture is modelled as a total function from byte index to byte value; the
tightly-packed 8-bit RGB layout means texel (x, y) of a width-W texture starts
at byte (x + y*W)*3.
-/

/-- `sampleFromTexture` (rasterize.cu line 188): read three consecutive bytes
starting at `uvStart` and divide by 255. -/
def sampleFromTexture (tex : ℤ → ℕ) (uvStart : ℤ) : Vec3 :=
  ⟨(tex uvStart : ℚ) / 255, (tex (uvStart + 1) : ℚ) / 255, (tex (uvStart + 2) : ℚ) / 255⟩

/-- `sampleFromTextureBilinear` (rasterize.cu line 194).  The base corner
`(u, v)` is the float pair truncated to int (unclamped); only `(u+1, v+1)` are
clamped to the texture rectangle.  The first two lerps blend `(u,v)` with
`(u,v1)` and `(u1,v)` with `(u1,v1)` using the fractional part of `uv.x`, and
the final lerp uses the fractional part of `uv.y`. -/
def sampleFromTextureBilinear (tex : ℤ → ℕ) (uv : Vec2) (width height : ℤ) : Vec3 :=
  let u : ℤ := truncQ uv.x
  let v : ℤ := truncQ uv.y
  let u1 : ℤ := iclamp (u + 1) 0 (width - 1)
  let v1 : ℤ := iclamp (v + 1) 0 (height - 1)
  let id00 : ℤ := (u + v * width) * 3
  let id01 : ℤ := (u + v1 * width) * 3
  let id10 : ℤ := (u1 + v * width) * 3
  let id11 : ℤ := (u1 + v1 * width) * 3
  let c00 := sampleFromTexture tex id00
  let c01 := sampleFromTexture tex id01
  let c10 := sampleFromTexture tex id10
  let c11 := sampleFromTexture tex id11
  let lerp1 := glmMix c00 c01 (uv.x - (u : ℚ))
  let lerp2 := glmMix c10 c11 (uv.x - (u : ℚ))
  glmMix lerp1 lerp2 (uv.y - (v : ℚ))

/-- The byte indices read from the texture array by one call of
`sampleFromTextureBilinear`: each of the four corner reads touches three
consecutive bytes. -/
def bilinearReadIndices (uv : Vec2) (width height : ℤ) : List ℤ :=
  let u : ℤ := truncQ uv.x
  let v : ℤ := truncQ uv.y
  let u1 : ℤ := iclamp (u + 1) 0 (width - 1)
  let v1 : ℤ := iclamp (v + 1) 0 (height - 1)
  let id00 : ℤ := (u + v * width) * 3
  let id01 : ℤ := (u + v1 * width) * 3
  let id10 : ℤ := (u1 + v * width) * 3
  let id11 : ℤ := (u1 + v1 * width) * 3
  [id00, id00 + 1, id00 + 2, id01, id01 + 1, id01 + 2,
   id10, id10 + 1, id10 + 2, id11, id11 + 1, id11 + 2]

/-- Modelled from the spec: the bilinear filter described in the specification
(section 4.4): the four texels at `(⌊u⌋,⌊v⌋), (⌊u⌋+1,⌊v⌋), (⌊u⌋,⌊v⌋+1),
(⌊u⌋+1,⌊v⌋+1)`, every coordinate clamped to the texture rectangle, each
divided by 255, blended by the fractional part of `u` along the horizontal
axis and the fractional part of `v` along the vertical axis. -/
def specBilinearSample (tex : ℤ → ℕ) (uv : Vec2) (width height : ℤ) : Vec3 :=
  let u0 : ℤ := iclamp ⌊uv.x⌋ 0 (width - 1)
  let v0 : ℤ := iclamp ⌊uv.y⌋ 0 (height - 1)
  let u1 : ℤ := iclamp (⌊uv.x⌋ + 1) 0 (width - 1)
  let v1 : ℤ := iclamp (⌊uv.y⌋ + 1) 0 (height - 1)
  let c00 := sampleFromTexture tex ((u0 + v0 * width) * 3)
  let c10 := sampleFromTexture tex ((u1 + v0 * width) * 3)
  let c01 := sampleFromTexture tex ((u0 + v1 * width) * 3)
  let c11 := sampleFromTexture tex ((u1 + v1 * width) * 3)
  let fx : ℚ := uv.x - (⌊uv.x⌋ : ℚ)
  let fy : ℚ := uv.y - (⌊uv.y⌋ : ℚ)
  glmMix (glmMix c00 c10 fx) (glmMix c01 c11 fx) fy

/-- The 2×2 texture [red, green; blue, white] of the specification test
scenarios, as a byte array: texel (0,0) red, (1,0) green, (0,1) blue,
(1,1) white. -/
def tex2x2 : ℤ → ℕ := fun i =>
  if i = 0 then 255 else if i = 1 then 0 else if i = 2 then 0
  else if i = 3 then 0 else if i = 4 then 255 else if i = 5 then 0
  else if i = 6 then 0 else if i = 7 then 0 else if i = 8 then 255
  else 255

/-!
## Pipeline data model  (rasterize.cu lines 37-100)
-/

/-- 3×3 rational matrix (row-major fields; `MV_normal`). -/
structure Mat3 where
  a00 : ℚ
  a01 : ℚ
  a02 : ℚ
  a10 : ℚ
  a11 : ℚ
  a12 : ℚ
  a20 : ℚ
  a21 : ℚ
  a22 : ℚ
deriving DecidableEq

/-- 4×4 rational matrix (row-major fields; `MVP`, `MV`). -/
structure Mat4 where
  a00 : ℚ
  a01 : ℚ
  a02 : ℚ
  a03 : ℚ
  a10 : ℚ
  a11 : ℚ
  a12 : ℚ
  a13 : ℚ
  a20 : ℚ
  a21 : ℚ
  a22 : ℚ
  a23 : ℚ
  a30 : ℚ
  a31 : ℚ
  a32 : ℚ
  a33 : ℚ
deriving DecidableEq

/-- Matrix-vector product for 4×4 matrices. -/
def mat4MulVec (m : Mat4) (v : Vec4) : Vec4 :=
  ⟨m.a00 * v.x + m.a01 * v.y + m.a02 * v.z + m.a03 * v.w,
   m.a10 * v.x + m.a11 * v.y + m.a12 * v.z + m.a13 * v.w,
   m.a20 * v.x + m.a21 * v.y + m.a22 * v.z + m.a23 * v.w,
   m.a30 * v.x + m.a31 * v.y + m.a32 * v.z + m.a33 * v.w⟩

/-- Matrix-vector product for 3×3 matrices. -/
def mat3MulVec (m : Mat3) (v : Vec3) : Vec3 :=
  ⟨m.a00 * v.x + m.a01 * v.y + m.a02 * v.z,
   m.a10 * v.x + m.a11 * v.y + m.a12 * v.z,
   m.a20 * v.x + m.a21 * v.y + m.a22 * v.z⟩

/-- `VertexOut` (rasterize.cu line 37): the per-vertex output of the vertex
transform stage.  `pos` is the window-space position 4-vector, `eyePos` the
eye-space position, `eyeNor` the normalized eye-space normal (real-valued
because of the normalization), `col` the debug tint, `texcoord0` the texture
coordinate.  The device texture pointer is modelled by the flag `hasTex`
together with the copied texture dimensions. -/
structure VertexOut where
  pos : Vec4
  eyePos : Vec3
  eyeNor : RVec3
  col : Vec3
  texcoord0 : Vec2
  hasTex : Bool
  texWidth : ℤ
  texHeight : ℤ

/-- `Primitive` (rasterize.cu line 53): a triangle of three VertexOut copies. -/
structure Primitive where
  v0 : VertexOut
  v1 : VertexOut
  v2 : VertexOut

/-- `Fragment` (rasterize.cu line 58): what the rasterizer writes per pixel.
`color`, `eyePos`, `eyeNor` pass through glm::normalize and are real-valued. -/
structure Fragment where
  color : RVec3
  eyePos : RVec3
  eyeNor : RVec3
  hasTex : Bool
  uvStart : ℤ
  bilinearUV : Vec2
  texWidth : ℤ
  texHeight : ℤ

/-- The zeroed Fragment produced by cudaMemset of the fragment buffer. -/
def zeroFragment : Fragment :=
  ⟨⟨0, 0, 0⟩, ⟨0, 0, 0⟩, ⟨0, 0, 0⟩, false, 0, ⟨0, 0⟩, 0, 0⟩

/-!
## Vertex transform and assembly  (rasterize.cu lines 740-777)
-/

/-- The debug tint of `_vertexTransformAndAssembly` (rasterize.cu lines
772-775): a zero vector with 0.5 added to component `vid mod 3`. -/
def colOfVid (vid : ℕ) : Vec3 :=
  if vid % 3 = 0 then ⟨1/2, 0, 0⟩
  else if vid % 3 = 1 then ⟨0, 1/2, 0⟩
  else ⟨0, 0, 1/2⟩

/-- `_vertexTransformAndAssembly` (rasterize.cu lines 740-777), the body for
one vertex id.  The position is taken through MVP, divided componentwise by
its own w (note: glm `vPos /= vPos.w` divides all four components, so the
stored w is `clip.w / clip.w`), then mapped to window coordinates with the z
sign flipped.  The eye-space position is MV times the position; the eye-space
normal is the normalized MV_normal image of the vertex normal (or of (1,1,1)
when normals are absent); the texcoord defaults to (0,0) when absent. -/
noncomputable def _vertexTransformAndAssembly (MVP MV : Mat4) (MV_normal : Mat3)
    (width height : ℕ) (position : Vec3) (normal : Option Vec3)
    (texcoord : Option Vec2) (hasTex : Bool) (texWidth texHeight : ℤ)
    (vid : ℕ) : VertexOut :=
  let vEyePos := mat4MulVec MV ⟨position.x, position.y, position.z, 1⟩
  let clip := mat4MulVec MVP ⟨position.x, position.y, position.z, 1⟩
  let vDiv : Vec4 := ⟨clip.x / clip.w, clip.y / clip.w, clip.z / clip.w, clip.w / clip.w⟩
  let vWin : Vec4 :=
    ⟨(1/2 : ℚ) * (width : ℚ) * (vDiv.x + 1),
     (1/2 : ℚ) * (height : ℚ) * (1 - vDiv.y),
     -vDiv.z, vDiv.w⟩
  let vNor : Vec3 := match normal with
    | some n => n
    | none => ⟨1, 1, 1⟩
  { pos := vWin,
    eyePos := ⟨vEyePos.x, vEyePos.y, vEyePos.z⟩,
    eyeNor := vnormalize (RVec3.ofQ (mat3MulVec MV_normal vNor)),
    col := colOfVid vid,
    texcoord0 := texcoord.getD ⟨0, 0⟩,
    hasTex := hasTex,
    texWidth := texWidth,
    texHeight := texHeight }

/-!
## Rasterizer  (rasterize.cu lines 806-910)

The geometric helpers (`getAABBForTriangle`, `calculateBarycentricCoordinate`,
`isBarycentricCoordInBounds`, `getZAtCoordinate`) live in rasterizeTools.h,
which is not among the provided sources; they are modelled from the
specification (sections 4.3 and 8).
-/

/-- Modelled from the spec: the signed area of a triangle in the standard
signed-area formulation (half the cross product of two edge vectors);
rasterizeTools.h is not among the provided sources. -/
def calculateSignedArea (a b c : Vec3) : ℚ :=
  ((c.x - a.x) * (b.y - a.y) - (b.x - a.x) * (c.y - a.y)) / 2

/-- Modelled from the spec (section 4.3): barycentric coordinates
`(λ0, λ1, λ2)` of a point against the projected triangle using the standard
signed-area formulation, with `λ0 = 1 - λ1 - λ2`.  A degenerate (zero-area)
triangle MUST be skipped, so it yields the out-of-bounds triple (-1,-1,-1);
rasterizeTools.h is not among the provided sources. -/
def calculateBarycentricCoordinate (t0 t1 t2 : Vec3) (p : Vec2) : Vec3 :=
  let A := calculateSignedArea t0 t1 t2
  if A = 0 then ⟨-1, -1, -1⟩
  else
    let pp : Vec3 := ⟨p.x, p.y, 0⟩
    let beta := calculateSignedArea t0 pp t2 / A
    let gamma := calculateSignedArea t0 t1 pp / A
    ⟨1 - beta - gamma, beta, gamma⟩

/-- Modelled from the spec (section 4.3.b): a barycentric triple is in bounds
when every component lies in [0, 1]; rasterizeTools.h is not among the
provided sources. -/
def isBarycentricCoordInBounds (b : Vec3) : Bool :=
  decide (0 ≤ b.x) && decide (b.x ≤ 1) && decide (0 ≤ b.y) && decide (b.y ≤ 1)
    && decide (0 ≤ b.z) && decide (b.z ≤ 1)

/-- Modelled from the spec (section 4.3.c): the window-space depth at a pixel
is the barycentric interpolation `λ0·t0.z + λ1·t1.z + λ2·t2.z` of the three
window-space z values; rasterizeTools.h is not among the provided sources. -/
def getZAtCoordinate (b : Vec3) (t0 t1 t2 : Vec3) : ℚ :=
  b.x * t0.z + b.y * t1.z + b.z * t2.z

/-- Integer axis-aligned bounding box of a triangle. -/
structure AABB where
  minX : ℤ
  maxX : ℤ
  minY : ℤ
  maxY : ℤ

/-- Modelled from the spec (section 4.3.2): the axis-aligned bounding box of
the triangle in pixel coordinates, clipped to `[0,W) × [0,H)`;
rasterizeTools.h is not among the provided sources (its variant in this
repository takes the viewport dimensions as extra arguments). -/
def getAABBForTriangle (t0 t1 t2 : Vec3) (width height : ℕ) : AABB :=
  { minX := max 0 ⌊min t0.x (min t1.x t2.x)⌋,
    maxX := min ((width : ℤ) - 1) ⌊max t0.x (max t1.x t2.x)⌋,
    minY := max 0 ⌊min t0.y (min t1.y t2.y)⌋,
    maxY := min ((height : ℤ) - 1) ⌊max t0.y (max t1.y t2.y)⌋ }

/-- The integers from `a` to `b` inclusive (empty when `b < a`): the index
range of a C `for (i = a; i <= b; i++)` loop. -/
def intRange (a b : ℤ) : List ℤ :=
  (List.range (b + 1 - a).toNat).map (fun (k : ℕ) => a + (k : ℤ))

/-- The window-space position of vertex `k` of a primitive with the w
component dropped (`glm::vec3(p.v[k].pos)`). -/
def triVert (v : VertexOut) : Vec3 := ⟨v.pos.x, v.pos.y, v.pos.z⟩

/-- The Fragment `_computeFragments` builds for a primitive at a given
barycentric triple (rasterize.cu lines 842-899), with the configured build
switches `CORRECT_INTERP = 1`, `TEXTURE = 1`, `TEXTURE_BILINEAR = 1` and the
debug views off.  `eyeNor` and `eyePos` are normalized affine barycentric
combinations; `color` and the texture coordinate are interpolated with
weights `1 / pos.z` and the normalizer `newBaryDepth`, and `color` is then
normalized. -/
noncomputable def mkFragment (p : Primitive) (b : Vec3) : Fragment :=
  let eyeNor := vnormalize
    ((b.x : ℝ) • p.v0.eyeNor + ((b.y : ℝ) • p.v1.eyeNor + (b.z : ℝ) • p.v2.eyeNor))
  let eyePos := vnormalize (RVec3.ofQ
    (b.x • p.v0.eyePos + (b.y • p.v1.eyePos + b.z • p.v2.eyePos)))
  let z0 := p.v0.pos.z
  let z1 := p.v1.pos.z
  let z2 := p.v2.pos.z
  let newBaryDepth : ℚ := 1 / (1 / z0 * b.x + 1 / z1 * b.y + 1 / z2 * b.z)
  let color := vnormalize (RVec3.ofQ
    (newBaryDepth • ((b.x / z0) • p.v0.col + ((b.y / z1) • p.v1.col + (b.z / z2) • p.v2.col))))
  let uv : Vec2 :=
    newBaryDepth • ((b.x / z0) • p.v0.texcoord0 + ((b.y / z1) • p.v1.texcoord0 + (b.z / z2) • p.v2.texcoord0))
  let uvScaled : Vec2 := ⟨uv.x * (p.v0.texWidth : ℚ), uv.y * (p.v0.texHeight : ℚ)⟩
  { color := color,
    eyePos := eyePos,
    eyeNor := eyeNor,
    hasTex := p.v0.hasTex,
    uvStart := (truncQ uvScaled.x + truncQ uvScaled.y * p.v0.texWidth) * 3,
    bilinearUV := uvScaled,
    texWidth := p.v0.texWidth,
    texHeight := p.v0.texHeight }

/-- The mutable per-pixel state of the rasterizer: the depth buffer, the
mutex buffer and the fragment buffer, indexed by the flat pixel index. -/
structure RState where
  depth : ℤ → ℤ
  mutex : ℤ → ℕ
  frags : ℤ → Fragment

/-- Flat pixel index `col + row * width`. -/
def pixIdx (width : ℕ) (c r : ℤ) : ℤ := c + r * (width : ℤ)

/-- One pixel of the rasterizer loop body (rasterize.cu lines 828-907): test
the barycentric coordinates, and on coverage run the mutex-guarded critical
section: acquire the per-pixel mutex by compare-exchange 0 to 1 (in this
sequential embedding the acquire succeeds exactly when the mutex is free, and
a busy mutex leaves the state unchanged), depth-test with strict less-than,
update depth and fragment on success, and store 0 back to the mutex on both
outcomes of the depth test. -/
noncomputable def processPixel (width : ℕ) (p : Primitive) (c r : ℤ)
    (st : RState) : RState :=
  let t0 := triVert p.v0
  let t1 := triVert p.v1
  let t2 := triVert p.v2
  let baryCoords := calculateBarycentricCoordinate t0 t1 t2 ⟨(c : ℚ), (r : ℚ)⟩
  if isBarycentricCoordInBounds baryCoords then
    let idx := pixIdx width c r
    let baryDepth := getZAtCoordinate baryCoords t0 t1 t2
    let newDepth : ℤ := truncQ ((INT_MAX : ℚ) * baryDepth)
    if st.mutex idx = 0 then
      let st1 : RState := { st with mutex := Function.update st.mutex idx 1 }
      let st2 : RState :=
        if newDepth < st1.depth idx then
          { st1 with depth := Function.update st1.depth idx newDepth,
                     frags := Function.update st1.frags idx (mkFragment p baryCoords) }
        else st1
      { st2 with mutex := Function.update st2.mutex idx 0 }
    else st
  else st

/-- The per-primitive body of `_computeFragments` (rasterize.cu lines
818-909): scan every pixel of the clipped bounding box row by row. -/
noncomputable def rasterizePrimitive (width height : ℕ) (st : RState)
    (p : Primitive) : RState :=
  let t0 := triVert p.v0
  let t1 := triVert p.v1
  let t2 := triVert p.v2
  let bb := getAABBForTriangle t0 t1 t2 width height
  (intRange bb.minY bb.maxY).foldl
    (fun s row => (intRange bb.minX bb.maxX).foldl
      (fun s2 col => processPixel width p col row s2) s) st

/-- `_computeFragments` over a whole primitive array (rasterize.cu lines
806-910): every primitive is rasterized (the launch order of a sequential
embedding). -/
noncomputable def _computeFragments (width height : ℕ) (prims : List Primitive)
    (st : RState) : RState :=
  prims.foldl (rasterizePrimitive width height) st

/-- The rasterizer entry state established by `rasterizeInit` (mutex buffer
memset to 0, fragment buffer memset to 0; rasterize.cu lines 259-284) and
`initDepth` (every depth entry INT_MAX; lines 286-297). -/
def initialState : RState :=
  { depth := fun _ => INT_MAX, mutex := fun _ => 0, frags := fun _ => zeroFragment }

/-!
## Fragment shader  (rasterize.cu lines 223-254)
-/

/-- The light position hard-coded in `render` (rasterize.cu line 246). -/
noncomputable def lightPos : RVec3 := ⟨1/2, 1/5, 7/10⟩

/-- The base color of a fragment under the configured build (`TEXTURE = 1`,
`TEXTURE_BILINEAR = 1`): the bilinear texture sample when the fragment holds
a texture reference, black otherwise (rasterize.cu lines 232-243). -/
def fragBaseColor (tex : ℤ → ℕ) (f : Fragment) : RVec3 :=
  if f.hasTex then
    RVec3.ofQ (sampleFromTextureBilinear tex f.bilinearUV f.texWidth f.texHeight)
  else ⟨0, 0, 0⟩

/-- The body of the `render` kernel for one pixel in the lit (non-debug)
configuration (rasterize.cu lines 224-253): sample the base color, form
`lightDir = normalize(lightPos - eyePos)`, add the 0.1 ambient term to the
Lambert dot product (with no clamping), and scale the base color. -/
noncomputable def render (tex : ℤ → ℕ) (f : Fragment) : RVec3 :=
  let fcolor := fragBaseColor tex f
  let lightDir := vnormalize (lightPos - f.eyePos)
  let lambert := RVec3.dot lightDir f.eyeNor + 1/10
  lambert • fcolor

/-- Modelled from the spec (section 4.4, the claim under test): the lit
shading with the Lambert term clamped at zero,
`lambert = max(0, dot(lightDir, eyeNor)) + 0.1`. -/
noncomputable def specRenderClamped (tex : ℤ → ℕ) (f : Fragment) : RVec3 :=
  let fcolor := fragBaseColor tex f
  let lightDir := vnormalize (lightPos - f.eyePos)
  (max 0 (RVec3.dot lightDir f.eyeNor) + 1/10) • fcolor

/-- The lit shading as the code performs it, written in the shape of the
specification sentence but without the `max(0, ·)` clamp. -/
noncomputable def specRenderNoClamp (tex : ℤ → ℕ) (f : Fragment) : RVec3 :=
  (RVec3.dot (vnormalize (lightPos - f.eyePos)) f.eyeNor + 1/10) • fragBaseColor tex f

/-!
## Resolve  (sendImageToPBO, rasterize.cu lines 138-186, SSAA branch)
-/

/-- An 8-bit RGBA output pixel (components as integers). -/
structure RGBA8 where
  r : ℤ
  g : ℤ
  b : ℤ
  a : ℤ
deriving DecidableEq

/-- `glm::clamp(v, 0, 1) * 255` applied componentwise (rasterize.cu lines
157-159). -/
def clampScale255 (v : RVec3) : RVec3 :=
  ⟨min (max v.x 0) 1 * 255, min (max v.y 0) 1 * 255, min (max v.z 0) 1 * 255⟩

/-- The body of `sendImageToPBO` for one output pixel in the SSAA branch
(rasterize.cu lines 142-169): accumulate the clamped, 255-scaled subpixels of
the S×S grid cell, divide by S², and convert each component to an 8-bit
channel by C float-to-int truncation; alpha is 0. -/
noncomputable def sendImageToPBO (S w : ℕ) (image : ℤ → RVec3) (x y : ℕ) : RGBA8 :=
  let color := (List.range S).foldl
    (fun (acc : RVec3) (offX : ℕ) => (List.range S).foldl
      (fun (acc2 : RVec3) (offY : ℕ) =>
        acc2 + clampScale255 (image
          (((offX : ℤ) + (x : ℤ) * (S : ℤ)) + ((offY : ℤ) + (y : ℤ) * (S : ℤ)) * (w : ℤ))))
      acc)
    (⟨0, 0, 0⟩ : RVec3)
  let cdiv := (1 / ((S : ℝ) * (S : ℝ))) • color
  ⟨truncR cdiv.x, truncR cdiv.y, truncR cdiv.z, 0⟩

/-- Modelled from the spec (section 4.5): the real-valued resolve value of an
output pixel, `(Σ_{i,j < S} clamp(framebuffer[S·x+i, S·y+j]) · 255) / S²`. -/
noncomputable def specResolveValue (S w : ℕ) (image : ℤ → RVec3) (x y : ℕ) : RVec3 :=
  (1 / ((S : ℝ) * (S : ℝ))) • (List.range S).foldl
    (fun (acc : RVec3) (i : ℕ) => (List.range S).foldl
      (fun (acc2 : RVec3) (j : ℕ) =>
        acc2 + clampScale255 (image
          (((S : ℤ) * (x : ℤ) + (i : ℤ)) + ((S : ℤ) * (y : ℤ) + (j : ℤ)) * (w : ℤ))))
      acc)
    (⟨0, 0, 0⟩ : RVec3)

/-!
## Scene upload  (rasterizeSetBuffers, rasterize.cu lines 411-736)

Only the control flow of the per-group loop matters for the claims: the
device-buffer copies are abstracted to retaining the group record.  The
groups of the scene are modelled as the flat sequence the nested
node/mesh/primitive loops would visit; a group whose indices are absent
triggers `return` (rasterize.cu lines 488-489), which leaves the whole
function, abandoning every group not yet processed.
-/

/-- A primitive group as seen by the upload loop: an identifier and whether
its index accessor is present. -/
structure PrimGroup where
  gid : ℕ
  hasIndices : Bool
deriving DecidableEq

/-- `rasterizeSetBuffers` restricted to its per-group control flow: groups
are uploaded in order; on the first group with absent indices the function
returns, so that group and all groups after it are dropped. -/
def rasterizeSetBuffers : List PrimGroup → List PrimGroup
  | [] => []
  | g :: gs => if g.hasIndices then g :: rasterizeSetBuffers gs else []

/-!
## Specification-side interpolation formulas (section 4.3.4)
-/

/-- Modelled from the spec: perspective-correct interpolation of a 3-vector
attribute, `W* · (λ0·A0/w0 + λ1·A1/w1 + λ2·A2/w2)` with
`W* = 1 / (λ0/w0 + λ1/w1 + λ2/w2)`. -/
def specPerspInterp3 (a0 a1 a2 : Vec3) (w0 w1 w2 : ℚ) (b : Vec3) : Vec3 :=
  (1 / (b.x / w0 + b.y / w1 + b.z / w2)) •
    ((b.x / w0) • a0 + ((b.y / w1) • a1 + (b.z / w2) • a2))

/-- Modelled from the spec: perspective-correct interpolation of a 2-vector
attribute. -/
def specPerspInterp2 (a0 a1 a2 : Vec2) (w0 w1 w2 : ℚ) (b : Vec3) : Vec2 :=
  (1 / (b.x / w0 + b.y / w1 + b.z / w2)) •
    ((b.x / w0) • a0 + ((b.y / w1) • a1 + (b.z / w2) • a2))

/-- Modelled from the spec: the plain affine interpolation
`λ0·A0 + λ1·A1 + λ2·A2` of a real 3-vector attribute. -/
def specAffineInterp3 (a0 a1 a2 : RVec3) (b : Vec3) : RVec3 :=
  (b.x : ℝ) • a0 + ((b.y : ℝ) • a1 + (b.z : ℝ) • a2)

/-- The affine interpolation of a rational 3-vector attribute. -/
def specAffineInterp3Q (a0 a1 a2 : Vec3) (b : Vec3) : Vec3 :=
  b.x • a0 + (b.y • a1 + b.z • a2)

/-!
## Depth-key bookkeeping for the depth-buffer claim
-/

/-- The barycentric coordinates of a primitive at pixel `(c, r)`. -/
def baryAt (p : Primitive) (c r : ℤ) : Vec3 :=
  calculateBarycentricCoordinate (triVert p.v0) (triVert p.v1) (triVert p.v2)
    ⟨(c : ℚ), (r : ℚ)⟩

/-- Whether a primitive covers pixel `(c, r)`: its barycentric coordinates
there are all inside [0, 1]. -/
def covers (p : Primitive) (c r : ℤ) : Bool :=
  isBarycentricCoordInBounds (baryAt p c r)

/-- The interpolated window-space depth of a primitive at pixel `(c, r)`. -/
def zAtPixel (p : Primitive) (c r : ℤ) : ℚ :=
  getZAtCoordinate (baryAt p c r) (triVert p.v0) (triVert p.v1) (triVert p.v2)

/-- The integer depth key the rasterizer computes at a covered pixel:
`INT_MAX * z` truncated toward zero by the C float-to-int cast
(rasterize.cu line 834). -/
def depthKeyOf (p : Primitive) (c r : ℤ) : ℤ :=
  truncQ ((INT_MAX : ℚ) * zAtPixel p c r)

/-- Modelled from the spec: the depth key of the claim under test,
`round(INT_MAX · z)`. -/
def roundDepthKeyOf (p : Primitive) (c r : ℤ) : ℤ :=
  round ((INT_MAX : ℚ) * zAtPixel p c r)

/-- The depth keys of all primitives covering pixel `(c, r)`, in order. -/
def coveringDepthKeys (prims : List Primitive) (c r : ℤ) : List ℤ :=
  prims.filterMap (fun p => if covers p c r then some (depthKeyOf p c r) else none)

/-- The rounded depth keys of all primitives covering pixel `(c, r)`. -/
def coveringRoundKeys (prims : List Primitive) (c r : ℤ) : List ℤ :=
  prims.filterMap (fun p => if covers p c r then some (roundDepthKeyOf p c r) else none)

/-!
## Concrete inputs used by counterexamples and witnesses
-/

/-- The identity 4×4 matrix. -/
def mat4Id : Mat4 := ⟨1,0,0,0, 0,1,0,0, 0,0,1,0, 0,0,0,1⟩

/-- The identity 3×3 matrix. -/
def mat3Id : Mat3 := ⟨1,0,0, 0,1,0, 0,0,1⟩

/-- The identity matrix with the last diagonal entry 2: sends (p, 1) to
(p, 2), so the clip-space w is 2. -/
def mvpW2 : Mat4 := ⟨1,0,0,0, 0,1,0,0, 0,0,1,0, 0,0,0,2⟩

/-- The clip-space position of a vertex: MVP times the homogeneous
position. -/
def clipOf (MVP : Mat4) (position : Vec3) : Vec4 :=
  mat4MulVec MVP ⟨position.x, position.y, position.z, 1⟩

/-- A window-space vertex at (0,0) with depth 1/2, eye position (2,0,0). -/
noncomputable def vtxTriA : VertexOut :=
  { pos := ⟨0, 0, 1/2, 1⟩, eyePos := ⟨2, 0, 0⟩, eyeNor := ⟨0, 0, 1⟩,
    col := ⟨1/2, 0, 0⟩, texcoord0 := ⟨0, 0⟩, hasTex := false, texWidth := 0, texHeight := 0 }

/-- A window-space vertex at (2,0) with depth 1/2, eye position (0,2,0). -/
noncomputable def vtxTriB : VertexOut :=
  { pos := ⟨2, 0, 1/2, 1⟩, eyePos := ⟨0, 2, 0⟩, eyeNor := ⟨0, 0, 1⟩,
    col := ⟨0, 1/2, 0⟩, texcoord0 := ⟨0, 0⟩, hasTex := false, texWidth := 0, texHeight := 0 }

/-- A window-space vertex at (0,2) with depth 1/2, eye position (0,0,2). -/
noncomputable def vtxTriC : VertexOut :=
  { pos := ⟨0, 2, 1/2, 1⟩, eyePos := ⟨0, 0, 2⟩, eyeNor := ⟨0, 0, 1⟩,
    col := ⟨0, 0, 1/2⟩, texcoord0 := ⟨0, 0⟩, hasTex := false, texWidth := 0, texHeight := 0 }

/-- A right triangle covering pixel (0,0) with barycentric (1,0,0) there;
all stored pos.w are 1 as the vertex stage produces them. -/
noncomputable def Pc2 : Primitive := ⟨vtxTriA, vtxTriB, vtxTriC⟩

/-- The window depth used by the depth-rounding counterexample:
`INT_MAX * zTie = 3/2` exactly, so truncation gives 1 and rounding gives 2. -/
def zTie : ℚ := 3 / 4294967294

/-- `vtxTriA` with window depth `zTie`. -/
noncomputable def vtxTieA : VertexOut :=
  { pos := ⟨0, 0, zTie, 1⟩, eyePos := ⟨2, 0, 0⟩, eyeNor := ⟨0, 0, 1⟩,
    col := ⟨1/2, 0, 0⟩, texcoord0 := ⟨0, 0⟩, hasTex := false, texWidth := 0, texHeight := 0 }

/-- `vtxTriB` with window depth `zTie`. -/
noncomputable def vtxTieB : VertexOut :=
  { pos := ⟨2, 0, zTie, 1⟩, eyePos := ⟨0, 2, 0⟩, eyeNor := ⟨0, 0, 1⟩,
    col := ⟨0, 1/2, 0⟩, texcoord0 := ⟨0, 0⟩, hasTex := false, texWidth := 0, texHeight := 0 }

/-- `vtxTriC` with window depth `zTie`. -/
noncomputable def vtxTieC : VertexOut :=
  { pos := ⟨0, 2, zTie, 1⟩, eyePos := ⟨0, 0, 2⟩, eyeNor := ⟨0, 0, 1⟩,
    col := ⟨0, 0, 1/2⟩, texcoord0 := ⟨0, 0⟩, hasTex := false, texWidth := 0, texHeight := 0 }

/-- The triangle of the depth-rounding counterexample: it covers pixel (0,0)
and its interpolated depth there satisfies `INT_MAX * z = 3/2`. -/
noncomputable def Ptie : Primitive := ⟨vtxTieA, vtxTieB, vtxTieC⟩

/-- A fragment whose eye normal faces away from the light: eyePos is chosen
so that lightDir = (0,0,1) and eyeNor = (0,0,-1), giving a Lambert dot
product of -1.  It references the 2×2 texture at uv = (0,0). -/
noncomputable def fragC4 : Fragment :=
  { color := ⟨0, 0, 0⟩, eyePos := ⟨1/2, 1/5, -(3/10)⟩, eyeNor := ⟨0, 0, -1⟩,
    hasTex := true, uvStart := 0, bilinearUV := ⟨0, 0⟩, texWidth := 2, texHeight := 2 }

/-- The supersampled framebuffer of the SSAA=2 resolve scenario: the four
subpixels of output pixel (0,0) are (1,0,0), (0,1,0), (0,0,1), (1,1,1). -/
noncomputable def imageC7 : ℤ → RVec3 := fun i =>
  if i = 0 then ⟨1, 0, 0⟩
  else if i = 1 then ⟨0, 1, 0⟩
  else if i = 2 then ⟨0, 0, 1⟩
  else ⟨1, 1, 1⟩

/-!
## Unfolding equations for the vector instances
-/

theorem Vec2_add_def (a b : Vec2) : a + b = ⟨a.x + b.x, a.y + b.y⟩ := rfl

theorem Vec2_smul_def (q : ℚ) (v : Vec2) : q • v = ⟨q * v.x, q * v.y⟩ := rfl

theorem Vec3_add_def (a b : Vec3) : a + b = ⟨a.x + b.x, a.y + b.y, a.z + b.z⟩ := rfl

theorem Vec3_smul_def (q : ℚ) (v : Vec3) : q • v = ⟨q * v.x, q * v.y, q * v.z⟩ := rfl

theorem RVec3_add_def (a b : RVec3) : a + b = ⟨a.x + b.x, a.y + b.y, a.z + b.z⟩ := rfl

theorem RVec3_sub_def (a b : RVec3) : a - b = ⟨a.x - b.x, a.y - b.y, a.z - b.z⟩ := rfl

theorem RVec3_smul_def (q : ℝ) (v : RVec3) : q • v = ⟨q * v.x, q * v.y, q * v.z⟩ := rfl

/-- Evaluation rule for `truncQ` on a nonnegative rational. -/
theorem truncQ_eval {q : ℚ} {n : ℤ} (h0 : 0 ≤ q) (h1 : (n : ℚ) ≤ q) (h2 : q < n + 1) :
    truncQ q = n := by
  rw [truncQ, if_pos h0]
  exact Int.floor_eq_iff.mpr ⟨h1, h2⟩

/-- Evaluation rule for rational floors by bounds. -/
theorem floorQ_eval {q : ℚ} {n : ℤ} (h1 : (n : ℚ) ≤ q) (h2 : q < n + 1) : ⌊q⌋ = n :=
  Int.floor_eq_iff.mpr ⟨h1, h2⟩

/-!
## Theorems
-/

/-- For a common blend factor, exchanging the two off-diagonal arguments of a
nested lerp makes no difference: a bilinear blend with equal fractions is
symmetric in the two blending orders. -/
theorem glmMix_cross (a b c d : Vec3) (f : ℚ) :
    glmMix (glmMix a b f) (glmMix c d f) f = glmMix (glmMix a c f) (glmMix b d f) f := by
  simp only [glmMix, Vec3_smul_def, Vec3_add_def, Vec3.mk.injEq]
  refine ⟨by ring, by ring, by ring⟩

/-- C5 counterexample: on the 2×2 texture [red, green; blue, white] at
uv = (0.5, 0), the code returns (0.5, 0, 0.5) — red blended toward blue, the
texel one row DOWN — while the claimed formula (fraction of u along the
horizontal axis) gives (0.5, 0.5, 0): the claim as stated is false. -/
theorem c5_counterexample :
    sampleFromTextureBilinear tex2x2 ⟨1/2, 0⟩ 2 2 ≠ specBilinearSample tex2x2 ⟨1/2, 0⟩ 2 2 := by
  have t1 : truncQ ((1:ℚ)/2) = 0 := truncQ_eval (by norm_num) (by norm_num) (by norm_num)
  have t2 : truncQ (0 : ℚ) = 0 := truncQ_eval (by norm_num) (by norm_num) (by norm_num)
  have f1 : ⌊(1:ℚ)/2⌋ = 0 := floorQ_eval (by norm_num) (by norm_num)
  have f2 : ⌊(0 : ℚ)⌋ = 0 := Int.floor_zero
  simp only [sampleFromTextureBilinear, specBilinearSample, sampleFromTexture, glmMix,
    t1, t2, f1, f2, iclamp]
  norm_num [tex2x2, Vec3_smul_def, Vec3_add_def, Vec3.mk.injEq]

/-- C5 (amended): the code blends the texel pairs {(u,v),(u,v+1)} and
{(u+1,v),(u+1,v+1)} by the fractional part of u and the two results by the
fractional part of v — the axes are exchanged relative to the claim — and the
base corner is not clamped.  Whenever the two fractional parts are equal and
the base texel is inside the texture, this coincides with the claimed
formula; in particular the 2×2 example at uv = (0.5, 0.5) still returns
(0.5, 0.5, 0.5). -/
theorem c5_amended :
    (∀ (tex : ℤ → ℕ) (uv : Vec2) (w h : ℤ),
        0 ≤ ⌊uv.x⌋ → ⌊uv.x⌋ ≤ w - 1 → 0 ≤ ⌊uv.y⌋ → ⌊uv.y⌋ ≤ h - 1 →
        uv.x - (⌊uv.x⌋ : ℚ) = uv.y - (⌊uv.y⌋ : ℚ) →
        sampleFromTextureBilinear tex uv w h = specBilinearSample tex uv w h) ∧
    sampleFromTextureBilinear tex2x2 ⟨1/2, 1/2⟩ 2 2 = ⟨1/2, 1/2, 1/2⟩ := by
  constructor
  · intro tex uv w h h1 h2 h3 h4 h5
    have hx0 : (0 : ℚ) ≤ uv.x := le_trans (by exact_mod_cast h1) (Int.floor_le uv.x)
    have hy0 : (0 : ℚ) ≤ uv.y := le_trans (by exact_mod_cast h3) (Int.floor_le uv.y)
    have hu : truncQ uv.x = ⌊uv.x⌋ := if_pos hx0
    have hv : truncQ uv.y = ⌊uv.y⌋ := if_pos hy0
    have hcu : iclamp ⌊uv.x⌋ 0 (w - 1) = ⌊uv.x⌋ := by unfold iclamp; omega
    have hcv : iclamp ⌊uv.y⌋ 0 (h - 1) = ⌊uv.y⌋ := by unfold iclamp; omega
    simp only [sampleFromTextureBilinear, specBilinearSample, hu, hv, hcu, hcv]
    rw [← h5]
    exact glmMix_cross _ _ _ _ _
  · have t1 : truncQ ((1:ℚ)/2) = 0 := truncQ_eval (by norm_num) (by norm_num) (by norm_num)
    simp only [sampleFromTextureBilinear, sampleFromTexture, glmMix, t1, iclamp]
    norm_num [tex2x2, Vec3_smul_def, Vec3_add_def, Vec3.mk.injEq]

/-- C5 witness: the agreement part of the amended claim applied at the
specification example (uv = (0.5, 0.5) on the 2×2 texture). -/
theorem c5_witness :
    (0 ≤ ⌊(1/2 : ℚ)⌋) ∧
    sampleFromTextureBilinear tex2x2 ⟨1/2, 1/2⟩ 2 2 = specBilinearSample tex2x2 ⟨1/2, 1/2⟩ 2 2 := by
  have fh : ⌊(2⁻¹ : ℚ)⌋ = 0 := floorQ_eval (by norm_num) (by norm_num)
  refine ⟨by simp [fh], ?_⟩
  exact c5_amended.1 tex2x2 ⟨1/2, 1/2⟩ 2 2 (by simp [fh]) (by simp [fh]) (by simp [fh])
    (by simp [fh]) (by simp [fh])

/-- C6: at (u, v) = (texW, texH) = (2, 2) on a 2×2 texture, the base corner
is NOT clamped, so the code computes byte index (2 + 2·2)·3 = 18 and reads
bytes 18..20 of a 12-byte texture: the sample reads out of bounds, against
the specification. -/
theorem c6_oob_read :
    (18 : ℤ) ∈ bilinearReadIndices ⟨2, 2⟩ 2 2 ∧ ¬ ((18 : ℤ) < 3 * 2 * 2) := by
  have t2 : truncQ (2 : ℚ) = 2 := truncQ_eval (by norm_num) (by norm_num) (by norm_num)
  constructor
  · simp only [bilinearReadIndices, t2]
    norm_num [iclamp]
  · norm_num

/-- C8 counterexample: a scene whose first group lacks indices and whose
second group is valid uploads nothing at all — the valid group is lost, so
the claim that all other valid groups survive is false. -/
theorem c8_counterexample :
    (⟨1, true⟩ : PrimGroup) ∉ rasterizeSetBuffers [⟨0, false⟩, ⟨1, true⟩] := by
  decide

/-- C8 (amended): a group with absent indices makes the upload return
immediately: exactly the groups strictly before the first invalid group are
uploaded, and every group from the first invalid one onward — valid or not —
is dropped. -/
theorem c8_amended (gs : List PrimGroup) :
    rasterizeSetBuffers gs = gs.takeWhile (fun g => g.hasIndices) := by
  induction gs with
  | nil => rfl
  | cons g gs ih =>
    by_cases h : g.hasIndices = true <;> simp [rasterizeSetBuffers, List.takeWhile_cons, h, ih]

/-- C3 counterexample: with an MVP whose clip output has w = 2 (the identity
scaled in the w row), the stored vertex w component is 2/2 = 1, not the
pre-divide clip w: `vPos /= vPos.w` divides all four components. -/
theorem c3_counterexample :
    (_vertexTransformAndAssembly mvpW2 mat4Id mat3Id 4 4 ⟨0, 0, 0⟩ none none false 0 0 0).pos.w
      ≠ (clipOf mvpW2 ⟨0, 0, 0⟩).w := by
  simp only [_vertexTransformAndAssembly, clipOf, mat4MulVec, mvpW2]
  norm_num

/-- C3 (amended): the stored window position is
x = 0.5·W·(clip.x/clip.w + 1), y = 0.5·H·(1 − clip.y/clip.w),
z = −clip.z/clip.w, and the stored w component is 1 (clip.w/clip.w), because
the glm componentwise division also divides the w slot; the pre-divide clip
w is NOT preserved. -/
theorem c3_amended (MVP MV : Mat4) (MVn : Mat3) (W H : ℕ) (position : Vec3)
    (normal : Option Vec3) (texcoord : Option Vec2) (ht : Bool) (tw th : ℤ) (vid : ℕ)
    (hw : (clipOf MVP position).w ≠ 0) :
    (_vertexTransformAndAssembly MVP MV MVn W H position normal texcoord ht tw th vid).pos =
      ⟨(1/2 : ℚ) * (W : ℚ) * ((clipOf MVP position).x / (clipOf MVP position).w + 1),
       (1/2 : ℚ) * (H : ℚ) * (1 - (clipOf MVP position).y / (clipOf MVP position).w),
       -((clipOf MVP position).z / (clipOf MVP position).w), 1⟩ := by
  simp only [_vertexTransformAndAssembly, clipOf, Vec4.mk.injEq]
  exact ⟨trivial, trivial, trivial, div_self hw⟩

/-- C3 witness: the amended statement evaluated at the identity MVP on a 4×4
viewport with vertex (0,0,0): clip = (0,0,0,1) and the stored position is
(2, 2, 0, 1). -/
theorem c3_witness :
    (clipOf mat4Id ⟨0, 0, 0⟩).w ≠ 0 ∧
    (_vertexTransformAndAssembly mat4Id mat4Id mat3Id 4 4 ⟨0, 0, 0⟩ none none false 0 0 0).pos =
      ⟨2, 2, 0, 1⟩ := by
  have hw : (clipOf mat4Id ⟨0, 0, 0⟩).w ≠ 0 := by
    simp [clipOf, mat4MulVec, mat4Id]
  refine ⟨hw, ?_⟩
  rw [c3_amended mat4Id mat4Id mat3Id 4 4 ⟨0, 0, 0⟩ none none false 0 0 0 hw]
  simp only [clipOf, mat4MulVec, mat4Id, Vec4.mk.injEq]
  norm_num

/-- C4 counterexample: a fragment lit from behind (Lambert dot product -1)
shaded with the 2×2 texture gives framebuffer x-component
(-1 + 0.1)·1 = -0.9, while the claimed clamped formula gives
(max(0,-1) + 0.1)·1 = 0.1: the code has no max(0,·), so the claim is
false and lambert is not bounded below by 0.1. -/
theorem c4_counterexample :
    render tex2x2 fragC4 ≠ specRenderClamped tex2x2 fragC4 := by
  have t0 : truncQ (0 : ℚ) = 0 := truncQ_eval (by norm_num) (by norm_num) (by norm_num)
  have hsample : sampleFromTextureBilinear tex2x2 ⟨0, 0⟩ 2 2 = ⟨1, 0, 0⟩ := by
    simp only [sampleFromTextureBilinear, sampleFromTexture, glmMix, t0, iclamp]
    norm_num [tex2x2, Vec3_smul_def, Vec3_add_def, Vec3.mk.injEq]
  have hb : fragBaseColor tex2x2 fragC4 = RVec3.ofQ ⟨1, 0, 0⟩ := by
    unfold fragBaseColor
    rw [if_pos (show fragC4.hasTex = true from rfl),
      show fragC4.bilinearUV = ⟨0, 0⟩ from rfl, show fragC4.texWidth = 2 from rfl,
      show fragC4.texHeight = 2 from rfl, hsample]
  have hl : lightPos - fragC4.eyePos = ⟨0, 0, 1⟩ := by
    simp only [lightPos, fragC4, RVec3_sub_def, RVec3.mk.injEq]
    norm_num
  have hn : vnormalize (⟨0, 0, 1⟩ : RVec3) = ⟨0, 0, 1⟩ := by
    simp only [vnormalize, RVec3.dot, RVec3_smul_def, RVec3.mk.injEq]
    norm_num
  have hd : RVec3.dot ⟨0, 0, 1⟩ fragC4.eyeNor = -1 := by
    simp only [RVec3.dot, fragC4]
    norm_num
  intro h
  have hx := congrArg RVec3.x h
  simp only [render, specRenderClamped, hb, hl, hn, hd, RVec3_smul_def, RVec3.ofQ] at hx
  norm_num at hx

/-- C4 (amended): the lit shader writes
framebuffer = baseColor · (dot(lightDir, eyeNor) + 0.1) with NO clamping of
the Lambert term, which can therefore drop below the 0.1 ambient floor; at
the counterexample fragment the output is (-0.9, 0, 0). -/
theorem c4_amended :
    (∀ (tex : ℤ → ℕ) (f : Fragment), render tex f = specRenderNoClamp tex f) ∧
    render tex2x2 fragC4 = ⟨-(9/10), 0, 0⟩ := by
  constructor
  · intro tex f
    rfl
  · have t0 : truncQ (0 : ℚ) = 0 := truncQ_eval (by norm_num) (by norm_num) (by norm_num)
    have hsample : sampleFromTextureBilinear tex2x2 ⟨0, 0⟩ 2 2 = ⟨1, 0, 0⟩ := by
      simp only [sampleFromTextureBilinear, sampleFromTexture, glmMix, t0, iclamp]
      norm_num [tex2x2, Vec3_smul_def, Vec3_add_def, Vec3.mk.injEq]
    have hb : fragBaseColor tex2x2 fragC4 = RVec3.ofQ ⟨1, 0, 0⟩ := by
      unfold fragBaseColor
      rw [if_pos (show fragC4.hasTex = true from rfl),
        show fragC4.bilinearUV = ⟨0, 0⟩ from rfl, show fragC4.texWidth = 2 from rfl,
        show fragC4.texHeight = 2 from rfl, hsample]
    have hl : lightPos - fragC4.eyePos = ⟨0, 0, 1⟩ := by
      simp only [lightPos, fragC4, RVec3_sub_def, RVec3.mk.injEq]
      norm_num
    have hn : vnormalize (⟨0, 0, 1⟩ : RVec3) = ⟨0, 0, 1⟩ := by
      simp only [vnormalize, RVec3.dot, RVec3_smul_def, RVec3.mk.injEq]
      norm_num
    have hd : RVec3.dot ⟨0, 0, 1⟩ fragC4.eyeNor = -1 := by
      simp only [RVec3.dot, fragC4]
      norm_num
    simp only [render, hb, hl, hn, hd, RVec3_smul_def, RVec3.ofQ, RVec3.mk.injEq]
    norm_num

/-- The dot product of a vector with itself is its squared norm. -/
theorem dot_self_eq_normSq (v : RVec3) : RVec3.dot v v = RVec3.normSq v := by
  simp only [RVec3.dot, RVec3.normSq]
  ring

/-- Normalizing a vector of nonzero squared norm yields a unit vector. -/
theorem normSq_vnormalize (v : RVec3) (h : RVec3.normSq v ≠ 0) :
    RVec3.normSq (vnormalize v) = 1 := by
  have hnn : 0 ≤ RVec3.normSq v := by
    simp only [RVec3.normSq]
    positivity
  have hexp : RVec3.normSq (vnormalize v) =
      (1 / Real.sqrt (RVec3.normSq v)) ^ 2 * RVec3.normSq v := by
    simp only [vnormalize, RVec3_smul_def, RVec3.normSq, dot_self_eq_normSq]
    ring
  rw [hexp, one_div, inv_pow, Real.sq_sqrt hnn, inv_mul_cancel₀ h]

/-- A nonzero rational vector has nonzero squared norm after embedding. -/
theorem ofQ_normSq_ne (v : Vec3) (h : v ≠ (⟨0, 0, 0⟩ : Vec3)) :
    RVec3.normSq (RVec3.ofQ v) ≠ 0 := by
  intro h0
  apply h
  have hq : (v.x ^ 2 + v.y ^ 2 + v.z ^ 2 : ℚ) = 0 := by
    have : ((v.x ^ 2 + v.y ^ 2 + v.z ^ 2 : ℚ) : ℝ) = 0 := by
      push_cast
      simpa [RVec3.normSq, RVec3.ofQ] using h0
    exact_mod_cast this
  have hx : v.x = 0 := by nlinarith [sq_nonneg v.x, sq_nonneg v.y, sq_nonneg v.z]
  have hy : v.y = 0 := by nlinarith [sq_nonneg v.x, sq_nonneg v.y, sq_nonneg v.z]
  have hz : v.z = 0 := by nlinarith [sq_nonneg v.x, sq_nonneg v.y, sq_nonneg v.z]
  cases v
  simp_all

/-- C2 (amended): under the configured perspective correction the fragment
attributes are: eyeNor and eyePos the NORMALIZED plain affine barycentric
combinations (no perspective weights at all); color the normalized
perspective-weighted combination with weights 1/pos.z — the window z, not
the clip w, whose stored value is always 1; and the texture coordinate the
perspective-weighted combination with the same 1/pos.z weights, scaled by
the texture dimensions. -/
theorem c2_amended (p : Primitive) (b : Vec3) :
    (mkFragment p b).eyeNor =
      vnormalize (specAffineInterp3 p.v0.eyeNor p.v1.eyeNor p.v2.eyeNor b) ∧
    (mkFragment p b).eyePos =
      vnormalize (RVec3.ofQ (specAffineInterp3Q p.v0.eyePos p.v1.eyePos p.v2.eyePos b)) ∧
    (mkFragment p b).color =
      vnormalize (RVec3.ofQ (specPerspInterp3 p.v0.col p.v1.col p.v2.col
        p.v0.pos.z p.v1.pos.z p.v2.pos.z b)) ∧
    (mkFragment p b).bilinearUV =
      ⟨(specPerspInterp2 p.v0.texcoord0 p.v1.texcoord0 p.v2.texcoord0
          p.v0.pos.z p.v1.pos.z p.v2.pos.z b).x * (p.v0.texWidth : ℚ),
       (specPerspInterp2 p.v0.texcoord0 p.v1.texcoord0 p.v2.texcoord0
          p.v0.pos.z p.v1.pos.z p.v2.pos.z b).y * (p.v0.texHeight : ℚ)⟩ := by
  refine ⟨rfl, rfl, ?_, ?_⟩
  · apply congrArg vnormalize
    apply congrArg RVec3.ofQ
    simp only [mkFragment, specPerspInterp3, Vec3_smul_def, Vec3_add_def, Vec3.mk.injEq]
    refine ⟨by ring, by ring, by ring⟩
  · simp only [mkFragment, specPerspInterp2, Vec2_smul_def, Vec2_add_def, Vec2.mk.injEq]
    constructor
    · apply congrArg (fun q => q * (p.v0.texWidth : ℚ))
      ring
    · apply congrArg (fun q => q * (p.v0.texHeight : ℚ))
      ring

/-- C2 counterexample: at pixel (0,0) the triangle `Pc2` is covered with
barycentric coordinates (1,0,0); the fragment eye position the rasterizer
stores is normalize((2,0,0)) = (1,0,0), while the claimed formula (with
weights from pos.w, which the vertex stage leaves at 1) gives (2,0,0): the
claim as stated is false, both because eyePos is interpolated affinely and
normalized, and because pos.w is not the pre-divide clip w. -/
theorem c2_counterexample :
    covers Pc2 0 0 = true ∧
    (mkFragment Pc2 (baryAt Pc2 0 0)).eyePos ≠
      RVec3.ofQ (specPerspInterp3 Pc2.v0.eyePos Pc2.v1.eyePos Pc2.v2.eyePos
        Pc2.v0.pos.w Pc2.v1.pos.w Pc2.v2.pos.w (baryAt Pc2 0 0)) := by
  have hb : baryAt Pc2 0 0 = ⟨1, 0, 0⟩ := by
    simp only [baryAt, calculateBarycentricCoordinate, calculateSignedArea, triVert,
      Pc2, vtxTriA, vtxTriB, vtxTriC]
    norm_num
  have hcov : covers Pc2 0 0 = true := by
    rw [covers, hb]
    simp only [isBarycentricCoordInBounds, Bool.and_eq_true, decide_eq_true_eq]
    norm_num
  refine ⟨hcov, ?_⟩
  have hsqrt4 : Real.sqrt 4 = 2 := by
    rw [show (4 : ℝ) = 2 ^ 2 by norm_num]
    exact Real.sqrt_sq (by norm_num)
  have hL : (mkFragment Pc2 (baryAt Pc2 0 0)).eyePos = ⟨1, 0, 0⟩ := by
    rw [hb]
    simp only [mkFragment, Pc2, vtxTriA, vtxTriB, vtxTriC, Vec3_smul_def, Vec3_add_def]
    simp only [vnormalize, RVec3.ofQ, RVec3.dot, RVec3_smul_def]
    norm_num [hsqrt4, RVec3.mk.injEq]
  have hR : RVec3.ofQ (specPerspInterp3 Pc2.v0.eyePos Pc2.v1.eyePos Pc2.v2.eyePos
      Pc2.v0.pos.w Pc2.v1.pos.w Pc2.v2.pos.w (baryAt Pc2 0 0)) = ⟨2, 0, 0⟩ := by
    rw [hb]
    simp only [specPerspInterp3, Pc2, vtxTriA, vtxTriB, vtxTriC, Vec3_smul_def,
      Vec3_add_def, RVec3.ofQ]
    norm_num [RVec3.mk.injEq]
  rw [hL, hR]
  intro h
  have h1 : (1 : ℝ) = 2 := congrArg RVec3.x h
  norm_num at h1

/-- C10: the fragment eye position is exactly the normalization of the plain
affine barycentric combination of the three eye-space vertex positions; in
particular, whenever that combination is nonzero the stored eyePos has unit
squared norm, so the magnitude of the true eye-space position is not
preserved in the fragment. -/
theorem c10_fragment_eyepos (p : Primitive) (b : Vec3)
    (h : specAffineInterp3Q p.v0.eyePos p.v1.eyePos p.v2.eyePos b ≠ (⟨0, 0, 0⟩ : Vec3)) :
    (mkFragment p b).eyePos =
      vnormalize (RVec3.ofQ (specAffineInterp3Q p.v0.eyePos p.v1.eyePos p.v2.eyePos b)) ∧
    RVec3.normSq ((mkFragment p b).eyePos) = 1 := by
  refine ⟨rfl, ?_⟩
  have : (mkFragment p b).eyePos =
      vnormalize (RVec3.ofQ (specAffineInterp3Q p.v0.eyePos p.v1.eyePos p.v2.eyePos b)) := rfl
  rw [this]
  exact normSq_vnormalize _ (ofQ_normSq_ne _ h)

/-- C10 witness: for the triangle `Pc2` at barycentric (1,0,0) the affine
eye-position combination is (2,0,0) ≠ 0 and the stored fragment eyePos has
unit squared norm. -/
theorem c10_witness :
    specAffineInterp3Q Pc2.v0.eyePos Pc2.v1.eyePos Pc2.v2.eyePos ⟨1, 0, 0⟩ ≠ (⟨0, 0, 0⟩ : Vec3) ∧
    RVec3.normSq ((mkFragment Pc2 ⟨1, 0, 0⟩).eyePos) = 1 := by
  have hne : specAffineInterp3Q Pc2.v0.eyePos Pc2.v1.eyePos Pc2.v2.eyePos ⟨1, 0, 0⟩
      ≠ (⟨0, 0, 0⟩ : Vec3) := by
    simp only [specAffineInterp3Q, Pc2, vtxTriA, vtxTriB, vtxTriC, Vec3_smul_def,
      Vec3_add_def, Vec3.mk.injEq, not_and]
    norm_num
  exact ⟨hne, (c10_fragment_eyepos Pc2 ⟨1, 0, 0⟩ hne).2⟩

/-- Evaluation rule for `truncR` on a nonnegative real. -/
theorem truncR_eval {x : ℝ} {n : ℤ} (h0 : 0 ≤ x) (h1 : (n : ℝ) ≤ x) (h2 : x < n + 1) :
    truncR x = n := by
  unfold truncR
  rw [if_pos h0]
  exact Int.floor_eq_iff.mpr ⟨h1, h2⟩

/-- C7 (amended): the resolve stage writes the componentwise C float-to-int
TRUNCATION of the real-valued resolve value (the clamped, 255-scaled box sum
divided by S²), with alpha 0 — not that value itself, which need not be an
integer. -/
theorem c7_amended (S w : ℕ) (image : ℤ → RVec3) (x y : ℕ) :
    sendImageToPBO S w image x y =
      ⟨truncR (specResolveValue S w image x y).x,
       truncR (specResolveValue S w image x y).y,
       truncR (specResolveValue S w image x y).z, 0⟩ := by
  have hidx : ∀ (offX offY : ℕ),
      ((offX : ℤ) + (x : ℤ) * (S : ℤ)) + ((offY : ℤ) + (y : ℤ) * (S : ℤ)) * (w : ℤ)
        = ((S : ℤ) * (x : ℤ) + (offX : ℤ)) + ((S : ℤ) * (y : ℤ) + (offY : ℤ)) * (w : ℤ) := by
    intro a b
    ring
  simp only [sendImageToPBO, specResolveValue, hidx]

/-- C7 counterexample: resolving the SSAA=2 block (1,0,0), (0,1,0), (0,0,1),
(1,1,1) gives channel sums 510, so 510/4 = 127.5 truncates to 127: the
output pixel is (127, 127, 127, 0), not the (128, 128, 128, 0) the claim
states. -/
theorem c7_counterexample :
    sendImageToPBO 2 2 imageC7 0 0 = ⟨127, 127, 127, 0⟩ ∧
    sendImageToPBO 2 2 imageC7 0 0 ≠ ⟨128, 128, 128, 0⟩ := by
  have hr : List.range 2 = [0, 1] := rfl
  have h : sendImageToPBO 2 2 imageC7 0 0 = ⟨127, 127, 127, 0⟩ := by
    simp only [sendImageToPBO, hr, List.foldl_cons, List.foldl_nil]
    norm_num [imageC7, clampScale255, RVec3_add_def, RVec3_smul_def, min_def, max_def,
      RGBA8.mk.injEq]
    exact truncR_eval (by norm_num) (by norm_num) (by norm_num)
  exact ⟨h, by rw [h]; decide⟩

/-!
## The rasterizer depth and mutex lemmas
-/

/-- Membership in the inclusive integer range of a C for loop. -/
theorem mem_intRange {a b x : ℤ} : x ∈ intRange a b ↔ a ≤ x ∧ x ≤ b := by
  simp only [intRange, List.mem_map, List.mem_range]
  constructor
  · rintro ⟨k, hk, rfl⟩
    omega
  · rintro ⟨h1, h2⟩
    exact ⟨(x - a).toNat, by omega, by omega⟩

/-- Two in-viewport pixels have the same flat index exactly when they are the
same pixel. -/
theorem pixIdx_inj {W H : ℕ} {c0 r0 c r : ℤ}
    (hc0 : 0 ≤ c0) (hc0W : c0 < (W : ℤ)) (hr0 : 0 ≤ r0) (hr0H : r0 < (H : ℤ))
    (hc : 0 ≤ c) (hcW : c < (W : ℤ)) (hr : 0 ≤ r) (hrH : r < (H : ℤ)) :
    pixIdx W c0 r0 = pixIdx W c r ↔ (c0 = c ∧ r0 = r) := by
  constructor
  · intro h
    unfold pixIdx at h
    have h1 : c0 - c = (r - r0) * (W : ℤ) := by linarith
    by_cases hrr : r0 = r
    · subst hrr
      have : c0 - c = 0 := by
        rw [h1]
        ring
      exact ⟨by linarith, rfl⟩
    · exfalso
      rcases lt_or_gt_of_ne hrr with hlt | hgt
      · have h2 : (1 : ℤ) ≤ r - r0 := by omega
        have h3 : (1 : ℤ) * (W : ℤ) ≤ (r - r0) * (W : ℤ) :=
          mul_le_mul_of_nonneg_right h2 (by positivity)
        linarith
      · have h2 : (1 : ℤ) ≤ r0 - r := by omega
        have h3 : (1 : ℤ) * (W : ℤ) ≤ (r0 - r) * (W : ℤ) :=
          mul_le_mul_of_nonneg_right h2 (by positivity)
        linarith
  · rintro ⟨rfl, rfl⟩
    rfl

/-- A convex combination of three values lies between their minimum and
maximum. -/
theorem convex_combo_bounds {l0 l1 l2 x0 x1 x2 : ℚ}
    (h0 : 0 ≤ l0) (h1 : 0 ≤ l1) (h2 : 0 ≤ l2) (hs : l0 + l1 + l2 = 1) :
    min x0 (min x1 x2) ≤ l0 * x0 + l1 * x1 + l2 * x2 ∧
    l0 * x0 + l1 * x1 + l2 * x2 ≤ max x0 (max x1 x2) := by
  constructor
  · have a0 : min x0 (min x1 x2) ≤ x0 := min_le_left _ _
    have a1 : min x0 (min x1 x2) ≤ x1 := le_trans (min_le_right _ _) (min_le_left _ _)
    have a2 : min x0 (min x1 x2) ≤ x2 := le_trans (min_le_right _ _) (min_le_right _ _)
    calc min x0 (min x1 x2)
        = l0 * min x0 (min x1 x2) + l1 * min x0 (min x1 x2) + l2 * min x0 (min x1 x2) := by
          rw [← add_mul, ← add_mul, hs, one_mul]
      _ ≤ l0 * x0 + l1 * x1 + l2 * x2 :=
          add_le_add (add_le_add (mul_le_mul_of_nonneg_left a0 h0)
            (mul_le_mul_of_nonneg_left a1 h1)) (mul_le_mul_of_nonneg_left a2 h2)
  · have a0 : x0 ≤ max x0 (max x1 x2) := le_max_left _ _
    have a1 : x1 ≤ max x0 (max x1 x2) := le_trans (le_max_left _ _) (le_max_right _ _)
    have a2 : x2 ≤ max x0 (max x1 x2) := le_trans (le_max_right _ _) (le_max_right _ _)
    calc l0 * x0 + l1 * x1 + l2 * x2
        ≤ l0 * max x0 (max x1 x2) + l1 * max x0 (max x1 x2) + l2 * max x0 (max x1 x2) :=
          add_le_add (add_le_add (mul_le_mul_of_nonneg_left a0 h0)
            (mul_le_mul_of_nonneg_left a1 h1)) (mul_le_mul_of_nonneg_left a2 h2)
      _ = max x0 (max x1 x2) := by
          rw [← add_mul, ← add_mul, hs, one_mul]

/-- For a nondegenerate triangle the barycentric coordinates sum to one and
reconstruct the sample point. -/
theorem bary_reconstruct (t0 t1 t2 : Vec3) (pt : Vec2)
    (hA : calculateSignedArea t0 t1 t2 ≠ 0) :
    (calculateBarycentricCoordinate t0 t1 t2 pt).x
      + (calculateBarycentricCoordinate t0 t1 t2 pt).y
      + (calculateBarycentricCoordinate t0 t1 t2 pt).z = 1 ∧
    (calculateBarycentricCoordinate t0 t1 t2 pt).x * t0.x
      + (calculateBarycentricCoordinate t0 t1 t2 pt).y * t1.x
      + (calculateBarycentricCoordinate t0 t1 t2 pt).z * t2.x = pt.x ∧
    (calculateBarycentricCoordinate t0 t1 t2 pt).x * t0.y
      + (calculateBarycentricCoordinate t0 t1 t2 pt).y * t1.y
      + (calculateBarycentricCoordinate t0 t1 t2 pt).z * t2.y = pt.y := by
  have hA' : (t2.x - t0.x) * (t1.y - t0.y) - (t1.x - t0.x) * (t2.y - t0.y) ≠ 0 := by
    intro h0
    apply hA
    unfold calculateSignedArea
    rw [h0]
    norm_num
  simp only [calculateBarycentricCoordinate, if_neg hA]
  unfold calculateSignedArea
  refine ⟨by ring, ?_, ?_⟩
  · field_simp
    ring
  · field_simp
    ring

/-- Unpacking a successful coverage test: the triangle is nondegenerate and
all three barycentric coordinates lie in [0, 1]. -/
theorem covers_facts (p : Primitive) (c r : ℤ) (hcov : covers p c r = true) :
    calculateSignedArea (triVert p.v0) (triVert p.v1) (triVert p.v2) ≠ 0 ∧
    (0 ≤ (baryAt p c r).x ∧ (baryAt p c r).x ≤ 1) ∧
    (0 ≤ (baryAt p c r).y ∧ (baryAt p c r).y ≤ 1) ∧
    (0 ≤ (baryAt p c r).z ∧ (baryAt p c r).z ≤ 1) := by
  have hb : 0 ≤ (baryAt p c r).x ∧ (baryAt p c r).x ≤ 1 ∧ 0 ≤ (baryAt p c r).y ∧
      (baryAt p c r).y ≤ 1 ∧ 0 ≤ (baryAt p c r).z ∧ (baryAt p c r).z ≤ 1 := by
    have := hcov
    simp only [covers, isBarycentricCoordInBounds, Bool.and_eq_true, decide_eq_true_eq] at this
    tauto
  refine ⟨?_, ⟨hb.1, hb.2.1⟩, ⟨hb.2.2.1, hb.2.2.2.1⟩, ⟨hb.2.2.2.2.1, hb.2.2.2.2.2⟩⟩
  intro hA0
  have hneg : baryAt p c r = ⟨-1, -1, -1⟩ := by
    simp only [baryAt, calculateBarycentricCoordinate, if_pos hA0]
  have h0 := hb.1
  rw [hneg] at h0
  norm_num at h0

/-- A covered in-viewport pixel lies inside the clipped bounding box the
rasterizer scans: its column is in the x range and its row in the y range. -/
theorem covers_mem_bbox (p : Primitive) (W H : ℕ) (c r : ℤ)
    (hc : 0 ≤ c) (hcW : c < (W : ℤ)) (hr : 0 ≤ r) (hrH : r < (H : ℤ))
    (hcov : covers p c r = true) :
    c ∈ intRange
        (getAABBForTriangle (triVert p.v0) (triVert p.v1) (triVert p.v2) W H).minX
        (getAABBForTriangle (triVert p.v0) (triVert p.v1) (triVert p.v2) W H).maxX ∧
    r ∈ intRange
        (getAABBForTriangle (triVert p.v0) (triVert p.v1) (triVert p.v2) W H).minY
        (getAABBForTriangle (triVert p.v0) (triVert p.v1) (triVert p.v2) W H).maxY := by
  obtain ⟨hA, hx, hy, hz⟩ := covers_facts p c r hcov
  obtain ⟨hsum, hrecx, hrecy⟩ :=
    bary_reconstruct (triVert p.v0) (triVert p.v1) (triVert p.v2) ⟨(c : ℚ), (r : ℚ)⟩ hA
  have hxb := @convex_combo_bounds (baryAt p c r).x (baryAt p c r).y (baryAt p c r).z
    (triVert p.v0).x (triVert p.v1).x (triVert p.v2).x hx.1 hy.1 hz.1 hsum
  have hyb := @convex_combo_bounds (baryAt p c r).x (baryAt p c r).y (baryAt p c r).z
    (triVert p.v0).y (triVert p.v1).y (triVert p.v2).y hx.1 hy.1 hz.1 hsum
  simp only [baryAt] at hxb hyb
  rw [hrecx] at hxb
  rw [hrecy] at hyb
  simp only at hxb hyb
  have h1 : ⌊min (triVert p.v0).x (min (triVert p.v1).x (triVert p.v2).x)⌋ ≤ c := by
    have := Int.floor_le_floor hxb.1
    simpa using this
  have h2 : c ≤ ⌊max (triVert p.v0).x (max (triVert p.v1).x (triVert p.v2).x)⌋ :=
    Int.le_floor.mpr hxb.2
  have h3 : ⌊min (triVert p.v0).y (min (triVert p.v1).y (triVert p.v2).y)⌋ ≤ r := by
    have := Int.floor_le_floor hyb.1
    simpa using this
  have h4 : r ≤ ⌊max (triVert p.v0).y (max (triVert p.v1).y (triVert p.v2).y)⌋ :=
    Int.le_floor.mpr hyb.2
  constructor
  · rw [mem_intRange]
    simp only [getAABBForTriangle]
    exact ⟨max_le (by omega) h1, le_min (by omega) h2⟩
  · rw [mem_intRange]
    simp only [getAABBForTriangle]
    exact ⟨max_le (by omega) h3, le_min (by omega) h4⟩

/-- `processPixel` keeps an all-free mutex buffer all-free: the critical
section stores 0 back on both outcomes of the depth test. -/
theorem processPixel_mutex (W : ℕ) (p : Primitive) (c r : ℤ) (st : RState)
    (h : ∀ i, st.mutex i = 0) : ∀ i, (processPixel W p c r st).mutex i = 0 := by
  intro i
  simp only [processPixel]
  split_ifs with h1 h2 h3 <;>
    simp [Function.update_apply, h i]

/-- `processPixel` at one pixel leaves the depth of every other pixel
untouched. -/
theorem processPixel_depth_other (W : ℕ) (p : Primitive) (c0 r0 c r : ℤ) (st : RState)
    (hne : pixIdx W c0 r0 ≠ pixIdx W c r) :
    (processPixel W p c0 r0 st).depth (pixIdx W c r) = st.depth (pixIdx W c r) := by
  simp only [processPixel]
  split_ifs with h1 h2 h3 <;>
    simp [Function.update_apply, Ne.symm hne]

/-- `processPixel` at its own pixel, entered with a free mutex: on coverage
the depth becomes the minimum of the old depth and the depth key (the
strict-less-than test), otherwise it is unchanged. -/
theorem processPixel_depth_self (W : ℕ) (p : Primitive) (c r : ℤ) (st : RState)
    (hm : st.mutex (pixIdx W c r) = 0) :
    (processPixel W p c r st).depth (pixIdx W c r) =
      if covers p c r = true
      then min (st.depth (pixIdx W c r)) (depthKeyOf p c r)
      else st.depth (pixIdx W c r) := by
  by_cases hcov : covers p c r = true
  · rw [if_pos hcov]
    simp only [processPixel]
    rw [if_pos (show isBarycentricCoordInBounds (calculateBarycentricCoordinate
      (triVert p.v0) (triVert p.v1) (triVert p.v2) ⟨(c : ℚ), (r : ℚ)⟩) = true from hcov)]
    rw [if_pos hm]
    split_ifs with h3
    · simp only [Function.update_same]
      exact (min_eq_right (le_of_lt h3)).symm
    · exact (min_eq_left (le_of_not_lt h3)).symm
  · rw [if_neg hcov]
    simp only [processPixel]
    rw [if_neg (show ¬ isBarycentricCoordInBounds (calculateBarycentricCoordinate
      (triVert p.v0) (triVert p.v1) (triVert p.v2) ⟨(c : ℚ), (r : ℚ)⟩) = true from hcov)]

/-- Folding a mutex-preserving step over any list keeps the mutex buffer
all-free. -/
theorem foldl_mutex_preserve {α : Type} (f : RState → α → RState)
    (hf : ∀ s a, (∀ i, s.mutex i = 0) → ∀ i, (f s a).mutex i = 0) :
    ∀ (l : List α) (st : RState), (∀ i, st.mutex i = 0) → ∀ i, (l.foldl f st).mutex i = 0 := by
  intro l
  induction l with
  | nil =>
    intro st h
    simpa using h
  | cons a l ih =>
    intro st h
    simp only [List.foldl_cons]
    exact ih _ (hf st a h)

/-- Effect of one row of the rasterizer scan on the depth of a fixed
in-viewport pixel: the depth is min-ed with the primitive's key exactly when
the scanned row is the pixel's row, the pixel's column is in the scanned
column list, and the primitive covers the pixel. -/
theorem innerFold_depth (W H : ℕ) (p : Primitive) (r0 : ℤ) (cols : List ℤ)
    (st : RState) (c r : ℤ) (hm : ∀ i, st.mutex i = 0)
    (hc : 0 ≤ c) (hcW : c < (W : ℤ)) (hr : 0 ≤ r) (hrH : r < (H : ℤ))
    (hr0 : 0 ≤ r0) (hr0H : r0 < (H : ℤ))
    (hcols : ∀ x ∈ cols, 0 ≤ x ∧ x < (W : ℤ)) :
    (cols.foldl (fun s2 col => processPixel W p col r0 s2) st).depth (pixIdx W c r) =
      if r0 = r ∧ c ∈ cols ∧ covers p c r = true
      then min (st.depth (pixIdx W c r)) (depthKeyOf p c r)
      else st.depth (pixIdx W c r) := by
  induction cols generalizing st with
  | nil => simp
  | cons c0 rest ih =>
    have hc0 := hcols c0 (List.mem_cons_self c0 rest)
    have hrest : ∀ x ∈ rest, 0 ≤ x ∧ x < (W : ℤ) :=
      fun x hx => hcols x (List.mem_cons_of_mem _ hx)
    have hm' : ∀ i, (processPixel W p c0 r0 st).mutex i = 0 :=
      processPixel_mutex W p c0 r0 st hm
    simp only [List.foldl_cons]
    rw [ih (processPixel W p c0 r0 st) hm' hrest]
    by_cases heq : pixIdx W c0 r0 = pixIdx W c r
    · obtain ⟨rfl, rfl⟩ :=
        (pixIdx_inj hc0.1 hc0.2 hr0 hr0H hc hcW hr hrH).mp heq
      rw [processPixel_depth_self W p c0 r0 st (hm _)]
      by_cases hcov : covers p c0 r0 = true
      · by_cases hmem : c0 ∈ rest
        · simp [hcov, hmem, min_assoc]
        · simp [hcov, hmem]
      · simp [hcov]
    · rw [processPixel_depth_other W p c0 r0 c r st heq]
      have hiff : (r0 = r ∧ c ∈ rest ∧ covers p c r = true) ↔
          (r0 = r ∧ c ∈ c0 :: rest ∧ covers p c r = true) := by
        constructor
        · rintro ⟨rfl, hmem, hcov2⟩
          exact ⟨rfl, List.mem_cons_of_mem _ hmem, hcov2⟩
        · rintro ⟨rfl, hmem, hcov2⟩
          rcases List.mem_cons.mp hmem with hh | hh
          · exact absurd (by rw [hh]) heq
          · exact ⟨rfl, hh, hcov2⟩
      rw [if_congr hiff.symm rfl rfl]

/-- Effect of the whole row/column scan on the depth of a fixed in-viewport
pixel. -/
theorem outerFold_depth (W H : ℕ) (p : Primitive) (rows cols : List ℤ)
    (st : RState) (c r : ℤ) (hm : ∀ i, st.mutex i = 0)
    (hc : 0 ≤ c) (hcW : c < (W : ℤ)) (hr : 0 ≤ r) (hrH : r < (H : ℤ))
    (hrows : ∀ x ∈ rows, 0 ≤ x ∧ x < (H : ℤ))
    (hcols : ∀ x ∈ cols, 0 ≤ x ∧ x < (W : ℤ)) :
    ((rows.foldl
        (fun s row => cols.foldl (fun s2 col => processPixel W p col row s2) s)
        st).depth (pixIdx W c r)) =
      if r ∈ rows ∧ c ∈ cols ∧ covers p c r = true
      then min (st.depth (pixIdx W c r)) (depthKeyOf p c r)
      else st.depth (pixIdx W c r) := by
  induction rows generalizing st with
  | nil => simp
  | cons r0 rest ih =>
    have hr0 := hrows r0 (List.mem_cons_self r0 rest)
    have hrest : ∀ x ∈ rest, 0 ≤ x ∧ x < (H : ℤ) :=
      fun x hx => hrows x (List.mem_cons_of_mem _ hx)
    have hm' : ∀ i,
        (cols.foldl (fun s2 col => processPixel W p col r0 s2) st).mutex i = 0 :=
      foldl_mutex_preserve _ (fun s a h => processPixel_mutex W p a r0 s h) cols st hm
    simp only [List.foldl_cons]
    rw [ih _ hm' hrest]
    rw [innerFold_depth W H p r0 cols st c r hm hc hcW hr hrH hr0.1 hr0.2 hcols]
    by_cases hcov : covers p c r = true
    · by_cases hcc : c ∈ cols
      · by_cases hr0r : r0 = r
        · subst hr0r
          by_cases hmem : r0 ∈ rest
          · simp [hcov, hcc, hmem, min_assoc]
          · simp [hcov, hcc, hmem]
        · have hne : ¬ (r = r0) := fun hh => hr0r hh.symm
          by_cases hmem : r ∈ rest
          · simp [hcov, hcc, hmem, hr0r, hne, List.mem_cons]
          · simp [hcov, hcc, hmem, hr0r, hne, List.mem_cons]
      · simp [hcc]
    · simp [hcov]

/-- `rasterizePrimitive` keeps an all-free mutex buffer all-free. -/
theorem rasterizePrimitive_mutex (W H : ℕ) (st : RState) (p : Primitive)
    (hm : ∀ i, st.mutex i = 0) : ∀ i, (rasterizePrimitive W H st p).mutex i = 0 := by
  unfold rasterizePrimitive
  exact foldl_mutex_preserve _
    (fun s row h =>
      foldl_mutex_preserve _ (fun s2 col h2 => processPixel_mutex W p col row s2 h2) _ s h)
    _ st hm

/-- Rasterizing one primitive min-updates the depth of an in-viewport pixel
with the primitive's key exactly when the primitive covers the pixel: a
covered pixel is always inside the scanned bounding box. -/
theorem rasterizePrimitive_depth (W H : ℕ) (st : RState) (p : Primitive) (c r : ℤ)
    (hm : ∀ i, st.mutex i = 0)
    (hc : 0 ≤ c) (hcW : c < (W : ℤ)) (hr : 0 ≤ r) (hrH : r < (H : ℤ)) :
    (rasterizePrimitive W H st p).depth (pixIdx W c r) =
      if covers p c r = true
      then min (st.depth (pixIdx W c r)) (depthKeyOf p c r)
      else st.depth (pixIdx W c r) := by
  unfold rasterizePrimitive
  rw [outerFold_depth W H p _ _ st c r hm hc hcW hr hrH ?_ ?_]
  · have hiff : ((r ∈ intRange
        (getAABBForTriangle (triVert p.v0) (triVert p.v1) (triVert p.v2) W H).minY
        (getAABBForTriangle (triVert p.v0) (triVert p.v1) (triVert p.v2) W H).maxY) ∧
        (c ∈ intRange
          (getAABBForTriangle (triVert p.v0) (triVert p.v1) (triVert p.v2) W H).minX
          (getAABBForTriangle (triVert p.v0) (triVert p.v1) (triVert p.v2) W H).maxX) ∧
        covers p c r = true) ↔ covers p c r = true := by
      constructor
      · exact fun h => h.2.2
      · intro hcov
        obtain ⟨hcx, hry⟩ := covers_mem_bbox p W H c r hc hcW hr hrH hcov
        exact ⟨hry, hcx, hcov⟩
    rw [if_congr hiff rfl rfl]
  · intro x hx
    rw [mem_intRange] at hx
    simp only [getAABBForTriangle] at hx
    constructor
    · exact le_trans (le_max_left 0 _) hx.1
    · exact lt_of_le_of_lt (le_trans hx.2 (min_le_left _ _)) (by omega)
  · intro x hx
    rw [mem_intRange] at hx
    simp only [getAABBForTriangle] at hx
    constructor
    · exact le_trans (le_max_left 0 _) hx.1
    · exact lt_of_le_of_lt (le_trans hx.2 (min_le_left _ _)) (by omega)

/-- `_computeFragments` keeps an all-free mutex buffer all-free. -/
theorem computeFragments_mutex (W H : ℕ) (prims : List Primitive) (st : RState)
    (hm : ∀ i, st.mutex i = 0) : ∀ i, (_computeFragments W H prims st).mutex i = 0 := by
  unfold _computeFragments
  exact foldl_mutex_preserve _ (fun s p h => rasterizePrimitive_mutex W H s p h) prims st hm

/-- After `_computeFragments`, the depth at an in-viewport pixel is the left
fold of `min` over the keys of the covering primitives, starting from the
entry depth. -/
theorem computeFragments_depth (W H : ℕ) (prims : List Primitive) (st : RState)
    (c r : ℤ) (hm : ∀ i, st.mutex i = 0)
    (hc : 0 ≤ c) (hcW : c < (W : ℤ)) (hr : 0 ≤ r) (hrH : r < (H : ℤ)) :
    (_computeFragments W H prims st).depth (pixIdx W c r) =
      (coveringDepthKeys prims c r).foldl min (st.depth (pixIdx W c r)) := by
  induction prims generalizing st with
  | nil => simp [_computeFragments, coveringDepthKeys]
  | cons p ps ih =>
    have hm' := rasterizePrimitive_mutex W H st p hm
    simp only [_computeFragments, List.foldl_cons] at ih ⊢
    rw [ih _ hm']
    rw [rasterizePrimitive_depth W H st p c r hm hc hcW hr hrH]
    simp only [coveringDepthKeys, List.filterMap_cons]
    by_cases hcov : covers p c r = true
    · simp [hcov]
    · simp [hcov]

/-- C1 (amended): after the rasterizer stage over a primitive array starting
from the initialized buffers, the depth at every in-viewport pixel equals
the minimum of INT_MAX and the keys `trunc(INT_MAX · z(i))` of all triangles
covering the pixel — the C int cast TRUNCATES toward zero rather than
rounding — and is INT_MAX when no triangle covers it (the empty fold). -/
theorem c1_depth_buffer (W H : ℕ) (prims : List Primitive) (c r : ℤ)
    (hc : 0 ≤ c) (hcW : c < (W : ℤ)) (hr : 0 ≤ r) (hrH : r < (H : ℤ)) :
    (_computeFragments W H prims initialState).depth (pixIdx W c r) =
      (coveringDepthKeys prims c r).foldl min INT_MAX :=
  computeFragments_depth W H prims initialState c r (fun _ => rfl) hc hcW hr hrH

/-- C9: the mutex buffer is all zero at the start of the rasterizer stage
(rasterizeInit memsets it); every critical section entered with a free
per-pixel mutex leaves that mutex free again, on both outcomes of the depth
test; and the mutex buffer is all zero again at the stage's exit. -/
theorem c9_mutex_zero (W H : ℕ) (prims : List Primitive) :
    (∀ i, initialState.mutex i = 0) ∧
    (∀ (p : Primitive) (c r : ℤ) (st : RState), st.mutex (pixIdx W c r) = 0 →
        (processPixel W p c r st).mutex (pixIdx W c r) = 0) ∧
    (∀ i, (_computeFragments W H prims initialState).mutex i = 0) := by
  refine ⟨fun _ => rfl, ?_, computeFragments_mutex W H prims initialState (fun _ => rfl)⟩
  intro p c r st hm
  simp only [processPixel]
  split_ifs with h1 h2 <;> simp [Function.update_apply, hm]

/-- C9 witness: the critical-section release applied at pixel (0,0) of a 1×1
viewport with the concrete triangle `Ptie`, starting from the initial state. -/
theorem c9_witness :
    initialState.mutex (pixIdx 1 0 0) = 0 ∧
    (processPixel 1 Ptie 0 0 initialState).mutex (pixIdx 1 0 0) = 0 :=
  ⟨rfl, (c9_mutex_zero 1 1 []).2.1 Ptie 0 0 initialState rfl⟩

/-- C1 counterexample: a single triangle with constant window depth
z = 3/4294967294 covers pixel (0,0) of a 1×1 viewport; INT_MAX·z = 3/2
exactly, so the code stores trunc(3/2) = 1 while the claimed
round(INT_MAX·z) = 2: the depth buffer does not satisfy the rounded formula. -/
theorem c1_counterexample :
    (_computeFragments 1 1 [Ptie] initialState).depth (pixIdx 1 0 0) ≠
      (coveringRoundKeys [Ptie] 0 0).foldl min INT_MAX := by
  rw [computeFragments_depth 1 1 [Ptie] initialState 0 0 (fun _ => rfl)
    (by norm_num) (by norm_num) (by norm_num) (by norm_num)]
  have hb : baryAt Ptie 0 0 = ⟨1, 0, 0⟩ := by
    simp only [baryAt, calculateBarycentricCoordinate, calculateSignedArea, triVert,
      Ptie, vtxTieA, vtxTieB, vtxTieC]
    norm_num
  have hcov : covers Ptie 0 0 = true := by
    rw [covers, hb]
    simp only [isBarycentricCoordInBounds, Bool.and_eq_true, decide_eq_true_eq]
    norm_num
  have hz : zAtPixel Ptie 0 0 = zTie := by
    rw [zAtPixel, hb]
    simp only [getZAtCoordinate, triVert, Ptie, vtxTieA, vtxTieB, vtxTieC]
    norm_num
  have hprod : (INT_MAX : ℚ) * zTie = 3 / 2 := by
    norm_num [INT_MAX, zTie]
  have hk : depthKeyOf Ptie 0 0 = 1 := by
    rw [depthKeyOf, hz, hprod]
    exact truncQ_eval (by norm_num) (by norm_num) (by norm_num)
  have hk2 : roundDepthKeyOf Ptie 0 0 = 2 := by
    rw [roundDepthKeyOf, hz, hprod, round_eq]
    rw [show (3 : ℚ) / 2 + 1 / 2 = 2 by norm_num]
    exact floorQ_eval (by norm_num) (by norm_num)
  simp only [coveringDepthKeys, coveringRoundKeys, List.filterMap_cons, hcov, if_pos,
    List.filterMap_nil, List.foldl_cons, List.foldl_nil, hk, hk2]
  rw [show initialState.depth (pixIdx 1 0 0) = INT_MAX from rfl]
  norm_num [INT_MAX, min_def]

/-- C1 witness: the amended depth formula applied to the concrete one-triangle
scene on a 1×1 viewport at pixel (0,0). -/
theorem c1_witness :
    ((0 : ℤ) ≤ 0 ∧ (0 : ℤ) < (1 : ℕ)) ∧
    (_computeFragments 1 1 [Ptie] initialState).depth (pixIdx 1 0 0) =
      (coveringDepthKeys [Ptie] 0 0).foldl min INT_MAX :=
  ⟨⟨le_refl 0, by norm_num⟩,
   c1_depth_buffer 1 1 [Ptie] 0 0 (by norm_num) (by norm_num) (by norm_num) (by norm_num)⟩
